import Mathlib

/-!
Shallow embedding of the agent task-dispatch core
(`be/src/agent/task_worker_pool.cpp`) of the palo backend.

Conventions of the embedding:
* C++ `std::deque<TAgentTaskRequest>` becomes `List TAgentTaskRequest`.
* `std::map` / `std::set` registry members become total functions with
  default value `0` (mirroring `operator[]` default insertion) and
  `Finset ℤ` respectively.
* Thrift optional fields guarded by `__isset` become `Option` fields.
* The C++ `float` share computations in `_get_next_task_index` are
  modelled by exact rationals (`ℚ`); Lean's `x / 0 = 0` convention on
  `ℚ` yields the same branch outcome as the IEEE `NaN`/`inf`
  comparisons of the source whenever the worker thread count is
  positive (both make the `<=` test false when the denominator is 0).
* Stateful code is explicit state passing over the registry record.
-/

namespace Palo

/-- Task kinds (`TTaskType::type`) that the dispatcher handles. -/
inductive TTaskType where
  | CREATE_TABLE
  | DROP_TABLE
  | PUSH
  | DELETE
  | ALTER_TABLE
  | CLONE
  | STORAGE_MEDIUM_MIGRATE
  | CANCEL_DELETE_DATA
  | CHECK_CONSISTENCY
  | MAKE_SNAPSHOT
  | RELEASE_SNAPSHOT
  | UPLOAD
  | RESTORE
  deriving DecidableEq, Repr

/-- Task priorities (`TPriority::type`). -/
inductive TPriority where
  | NORMAL
  | HIGH
  deriving DecidableEq, Repr

/-- Push subtypes (`TPushType::type`). -/
inductive TPushType where
  | LOAD
  | DELETE
  | LOAD_DELETE
  deriving DecidableEq, Repr

/-- Agent-internal status codes (`AgentStatus`). -/
inductive AgentStatus where
  | PALO_SUCCESS
  | PALO_ERROR
  | PALO_TASK_REQUEST_ERROR
  | PALO_FILE_DOWNLOAD_FAILED
  | PALO_CREATE_TABLE_EXIST
  deriving DecidableEq, Repr

/-- The part of a `TAgentTaskRequest` the dispatcher core reads.
`user = none` models `__isset.resource_info = false`; `priority = none`
models `__isset.priority = false`. -/
structure TAgentTaskRequest where
  task_type : TTaskType
  signature : ℤ
  user : Option String
  priority : Option TPriority
  deriving DecidableEq, Repr

/-- The process-wide signature registry: `_s_task_signatures`,
`_s_total_task_user_count`, `_s_total_task_count` and
`_s_running_task_user_count` of `TaskWorkerPool`. -/
structure Registry where
  task_signatures : TTaskType → Finset ℤ
  total_task_user_count : TTaskType → String → ℕ
  total_task_count : TTaskType → ℕ
  running_task_user_count : TTaskType → String → ℕ

/-! ### Clone download-list construction (`_clone_copy`, lines 1138-1167)

The remote listing string is split on `'\n'`; the trailing chunk is
appended only when non-empty (`start_position != file_list_str.size()`).
A chunk whose length exceeds 4 and whose last four characters are
`".hdr"` is pushed to the back of `file_name_list`; every other chunk
is inserted at the front (`file_name_list.insert(begin, ...)`). -/

/-- The code's header-file test:
`file_name.size() > 4 && file_name.substr(file_name.size() - 4, 4) == ".hdr"`. -/
def is_hdr_file (name : List Char) : Bool :=
  decide (4 < name.length) && decide (name.drop (name.length - 4) = ['.', 'h', 'd', 'r'])

/-- Splitting loop of `_clone_copy`: accumulates the current chunk
(in reverse) and emits it at each `'\n'`; the final chunk is emitted
only when non-empty. -/
def split_file_list_aux (cur : List Char) : List Char → List (List Char)
  | [] => if cur = [] then [] else [cur.reverse]
  | c :: rest =>
      if c = '\n' then cur.reverse :: split_file_list_aux [] rest
      else split_file_list_aux (c :: cur) rest

/-- Split the newline-separated remote listing exactly as the
`find("\n")` loop of `_clone_copy` does. -/
def split_file_list (s : List Char) : List (List Char) :=
  split_file_list_aux [] s

/-- One step of building `file_name_list`: `.hdr` names (per
`is_hdr_file`) go to the tail, every other name to the head. -/
def clone_list_step (acc : List (List Char)) (name : List Char) : List (List Char) :=
  if is_hdr_file name then acc ++ [name] else name :: acc

/-- The download list `file_name_list` built by `_clone_copy` from the
remote listing string; files are then downloaded in list order. -/
def clone_file_name_list (s : List Char) : List (List Char) :=
  (split_file_list s).foldl clone_list_step []

/-- The spec's notion of a header file: a name ending in `.hdr`
(no length restriction). Used to state the ordering claim. -/
def ends_with_hdr (name : List Char) : Bool :=
  List.isSuffixOf ['.', 'h', 'd', 'r'] name

/-! ### Push-queue selection (`_get_next_task_index`, lines 300-374)

The function scans the queue once, carrying a `user` string that is
updated only when a task has `resource_info` set (so it can carry over
from an earlier task).  A HIGH-lane call selects the first task whose
priority field is set to HIGH and returns -1 when none exists (before
touching `_s_running_task_user_count`).  A NORMAL-lane call selects the
first task whose user passes the share test, maintaining the
`improper_users` set; with no selection it falls back to index 0.  On
every selection (fallback included) `_s_running_task_user_count` of the
selected task's type and the carried user is incremented. -/

/-- `user_total_rate = total_task_user_count[type][user] * 1.0 / total_task_count[type]`.
The C++ `float` division is modelled exactly over `ℚ`; division by zero
is `0` in `ℚ`, which produces the same comparison outcome as the IEEE
`NaN` of the source whenever `thread_count > 0`. -/
def user_total_rate (reg : Registry) (ty : TTaskType) (user : String) : ℚ :=
  (reg.total_task_user_count ty user : ℚ) / (reg.total_task_count ty : ℚ)

/-- `user_running_rate = (running_task_user_count[type][user] + 1) * 1.0 / thread_count`. -/
def user_running_rate (reg : Registry) (ty : TTaskType) (user : String)
    (thread_count : ℕ) : ℚ :=
  ((reg.running_task_user_count ty user : ℚ) + 1) / (thread_count : ℚ)

/-- The NORMAL-lane admission test of `_get_next_task_index`:
`running_task_user_count == 0 || user_running_rate <= user_total_rate`. -/
def share_test (reg : Registry) (thread_count : ℕ) (ty : TTaskType)
    (user : String) : Bool :=
  (reg.running_task_user_count ty user == 0)
    || decide (user_running_rate reg ty user thread_count ≤ user_total_rate reg ty user)

/-- Increment `_s_running_task_user_count[ty][user]` by one. -/
def inc_running (reg : Registry) (ty : TTaskType) (user : String) : Registry :=
  { reg with
    running_task_user_count := fun t u =>
      if t = ty ∧ u = user then reg.running_task_user_count t u + 1
      else reg.running_task_user_count t u }

/-- HIGH-lane scan of `_get_next_task_index`: first task with
`__isset.priority && priority == HIGH`, together with the carried user
and the task's type at the moment of the `break`. -/
def scan_high : List TAgentTaskRequest → String → Option (ℕ × String × TTaskType)
  | [], _ => none
  | t :: rest, user =>
      let u := t.user.getD user
      if t.priority = some TPriority.HIGH then some (0, u, t.task_type)
      else (scan_high rest u).map fun r => (r.1 + 1, r.2)

/-- NORMAL-lane scan of `_get_next_task_index`: skip tasks whose carried
user is in `improper_users`; select the first task whose user passes
`share_test`; otherwise add the user to `improper_users` and continue. -/
def scan_normal (reg : Registry) (thread_count : ℕ) :
    List TAgentTaskRequest → String → List String → Option (ℕ × String × TTaskType)
  | [], _, _ => none
  | t :: rest, user, improper_users =>
      let u := t.user.getD user
      if u ∈ improper_users then
        (scan_normal reg thread_count rest u improper_users).map fun r => (r.1 + 1, r.2)
      else if share_test reg thread_count t.task_type u then some (0, u, t.task_type)
      else
        (scan_normal reg thread_count rest u (u :: improper_users)).map
          fun r => (r.1 + 1, r.2)

/-- `_get_next_task_index`: returns the selected index (`-1` for a
HIGH-lane scan with no HIGH task; the `uint32_t` return value is read
back as `int32_t` by the only caller) together with the updated
registry.  The `[]`, NORMAL case models the out-of-bounds `tasks[0]`
access, unreachable because the caller holds the queue lock with a
non-empty queue. -/
def get_next_task_index (thread_count : ℕ) (tasks : List TAgentTaskRequest)
    (priority : TPriority) (reg : Registry) : ℤ × Registry :=
  match priority with
  | TPriority.HIGH =>
      match scan_high tasks "" with
      | some (i, u, ty) => ((i : ℤ), inc_running reg ty u)
      | none => (-1, reg)
  | TPriority.NORMAL =>
      match scan_normal reg thread_count tasks "" [] with
      | some (i, u, ty) => ((i : ℤ), inc_running reg ty u)
      | none =>
          match tasks with
          | [] => (0, reg)
          | t :: _ => (0, inc_running reg t.task_type (t.user.getD ""))

/-- One selection step of `_push_worker_thread_callback` (lines
678-708): call `_get_next_task_index`; on a negative index leave the
queue and registry alone (the worker notifies the condvar and sleeps);
otherwise remove the selected task from the queue and hand it to
execution. -/
def push_worker_select_step (thread_count : ℕ) (priority : TPriority)
    (queue : List TAgentTaskRequest) (reg : Registry) :
    List TAgentTaskRequest × Registry × Option TAgentTaskRequest :=
  let r := get_next_task_index thread_count queue priority reg
  if r.1 < 0 then (queue, reg, none)
  else (queue.eraseIdx r.1.toNat, r.2, queue.get? r.1.toNat)

/-! ### Submission and in-flight bookkeeping (`submit_task`,
`_record_task_info`, lines 188-230) -/

/-- `_record_task_info`: under the registry lock, reject a signature
already in `_s_task_signatures[task_type]`; otherwise insert it and,
for `PUSH`, increment `_s_total_task_user_count[PUSH][user]` and
`_s_total_task_count[PUSH]`. -/
def record_task_info (reg : Registry) (task_type : TTaskType) (signature : ℤ)
    (user : String) : Bool × Registry :=
  if signature ∈ reg.task_signatures task_type then (false, reg)
  else
    (true,
      { reg with
        task_signatures := fun ty =>
          if ty = task_type then insert signature (reg.task_signatures ty)
          else reg.task_signatures ty
        total_task_user_count := fun ty u =>
          if task_type = TTaskType.PUSH ∧ ty = task_type ∧ u = user then
            reg.total_task_user_count ty u + 1
          else reg.total_task_user_count ty u
        total_task_count := fun ty =>
          if task_type = TTaskType.PUSH ∧ ty = task_type then
            reg.total_task_count ty + 1
          else reg.total_task_count ty })

/-- `submit_task`: extract the user from `resource_info` when set
(empty string otherwise); enqueue the task at the back of the pool's
queue only when `_record_task_info` accepted the signature. -/
def submit_task (queue : List TAgentTaskRequest) (reg : Registry)
    (task : TAgentTaskRequest) : List TAgentTaskRequest × Registry :=
  let user := task.user.getD ""
  let r := record_task_info reg task.task_type task.signature user
  (if r.1 then queue ++ [task] else queue, r.2)

/-! ### Push execution retry loop (`_push_worker_thread_callback`,
lines 715-740) and finish retry loop (`_finish_task`, lines 279-298) -/

/-- `PUSH_MAX_RETRY` (line 57). -/
def PUSH_MAX_RETRY : ℕ := 1

/-- `TASK_FINISH_MAX_RETRY` (line 56). -/
def TASK_FINISH_MAX_RETRY : ℕ := 3

/-- The `while (retry_time < PUSH_MAX_RETRY)` loop around
`pusher.process`: `proc n` is the status of the `n`-th call (0-based).
The fuel argument is `PUSH_MAX_RETRY - retry_time`, which strictly
decreases on every `PALO_ERROR` iteration.  Returns the number of
`process` calls made and the final status. -/
def push_process_loop (proc : ℕ → AgentStatus) :
    ℕ → ℕ → AgentStatus → ℕ × AgentStatus
  | 0, calls, status => (calls, status)
  | fuel + 1, calls, _ =>
      let s := proc calls
      if s = AgentStatus.PALO_ERROR then push_process_loop proc fuel (calls + 1) s
      else (calls + 1, s)

/-- The full post-`init` retry phase of a LOAD / LOAD_DELETE push:
`retry_time` starts at 0, the loop runs while
`retry_time < PUSH_MAX_RETRY`. -/
def push_process_attempts (proc : ℕ → AgentStatus) : ℕ × AgentStatus :=
  push_process_loop proc PUSH_MAX_RETRY 0 AgentStatus.PALO_SUCCESS

/-- The `while (try_time < TASK_FINISH_MAX_RETRY)` loop of
`_finish_task`: `rpc n` tells whether the `n`-th `finish_task` RPC
(0-based) returns `PALO_SUCCESS`.  On success the loop breaks before
the `sleep`; on failure it increments `try_time`, sleeps one second and
retries.  Returns (RPC calls made, sleeps performed, success flag). -/
def finish_task_loop (rpc : ℕ → Bool) : ℕ → ℕ → ℕ → ℕ × ℕ × Bool
  | 0, calls, sleeps => (calls, sleeps, false)
  | fuel + 1, calls, sleeps =>
      if rpc calls then (calls + 1, sleeps, true)
      else finish_task_loop rpc fuel (calls + 1) (sleeps + 1)

/-- `_finish_task` as observed through its RPC/sleep trace. -/
def finish_task (rpc : ℕ → Bool) : ℕ × ℕ × Bool :=
  finish_task_loop rpc TASK_FINISH_MAX_RETRY 0 0

/-! ### Restore file renaming (`_restore_worker_thread_callback`,
lines 1812-1856)

For each regular downloaded file the worker takes the name after the
last `'/'`; names of length at most 4 or with a suffix other than
`.hdr`/`.idx`/`.dat` are skipped.  Otherwise the separator is `'.'`
for `.hdr` and `'_'` for the rest, and the new name is
`tablet_id + file_name.substr(file_name.find(sperator))` — the suffix
starting at the FIRST occurrence of the separator.  When the separator
does not occur, `find` yields `npos` and `substr(npos)` throws
`std::out_of_range`. -/

/-- Result of the per-file rename decision. -/
inductive RenameResult where
  | skip
  | renamed (newName : List Char)
  | outOfRange
  deriving DecidableEq, Repr

/-- First index of a character in a name (`std::string::find`). -/
def first_index_of (c : Char) (name : List Char) : Option ℕ :=
  name.findIdx? (fun x => x = c)

/-- Last index of a character in a name (`std::string::rfind`); used
only by the spec-side rename model. -/
def last_index_of (c : Char) (name : List Char) : Option ℕ :=
  (first_index_of c name.reverse).map fun i => name.length - 1 - i

/-- The rename decision of the restore worker for one file name (the
part after the last `'/'`), with `tablet_id` already rendered in
decimal. -/
def restore_rename (tablet_id : List Char) (name : List Char) : RenameResult :=
  if name.length ≤ 4 then RenameResult.skip
  else
    let suffix := name.drop (name.length - 4)
    if suffix ≠ ['.', 'h', 'd', 'r'] ∧ suffix ≠ ['.', 'i', 'd', 'x'] ∧
        suffix ≠ ['.', 'd', 'a', 't'] then RenameResult.skip
    else
      let sperator := if suffix = ['.', 'h', 'd', 'r'] then '.' else '_'
      match first_index_of sperator name with
      | some p => RenameResult.renamed (tablet_id ++ name.drop p)
      | none => RenameResult.outOfRange

/-- Modelled from the spec sentence for comparison (not from the
source): identical to `restore_rename` except that the replaced prefix
ends at the LAST occurrence of the separator, as the spec words
"the prefix before its last `_` (or `.` for `.hdr`)" demand. -/
def restore_rename_spec_last (tablet_id : List Char) (name : List Char) : RenameResult :=
  if name.length ≤ 4 then RenameResult.skip
  else
    let suffix := name.drop (name.length - 4)
    if suffix ≠ ['.', 'h', 'd', 'r'] ∧ suffix ≠ ['.', 'i', 'd', 'x'] ∧
        suffix ≠ ['.', 'd', 'a', 't'] then RenameResult.skip
    else
      let sperator := if suffix = ['.', 'h', 'd', 'r'] then '.' else '_'
      match last_index_of sperator name with
      | some p => RenameResult.renamed (tablet_id ++ name.drop p)
      | none => RenameResult.outOfRange

/-- The separator character the restore worker replaces up to:
`'.'` for a `.hdr` file, `'_'` otherwise (lines 1841-1844). -/
def restore_sep (name : List Char) : Char :=
  if name.drop (name.length - 4) = ['.', 'h', 'd', 'r'] then '.' else '_'

/-! ### Sample data used by the witness theorems -/

/-- A sample registry: user `"a"` has 1 of 4 admitted push tasks but 3
already running; user `"b"` has 3 of 4 admitted and none running. -/
def sample_reg : Registry :=
  { task_signatures := fun _ => ∅
    total_task_user_count := fun _ u => if u = "a" then 1 else if u = "b" then 3 else 0
    total_task_count := fun _ => 4
    running_task_user_count := fun _ u => if u = "a" then 3 else 0 }

/-- A sample registry with no admitted push tasks at all. -/
def empty_reg : Registry :=
  { task_signatures := fun _ => ∅
    total_task_user_count := fun _ _ => 0
    total_task_count := fun _ => 0
    running_task_user_count := fun _ _ => 0 }

/-- A NORMAL-priority push task of user `"a"`. -/
def task_a : TAgentTaskRequest :=
  { task_type := TTaskType.PUSH, signature := 1, user := some "a", priority := none }

/-- A push task of user `"b"` with the priority field set to HIGH. -/
def task_b_high : TAgentTaskRequest :=
  { task_type := TTaskType.PUSH, signature := 2, user := some "b",
    priority := some TPriority.HIGH }

/-- A push task of user `"b"` with the priority field set to NORMAL. -/
def task_b_normal : TAgentTaskRequest :=
  { task_type := TTaskType.PUSH, signature := 3, user := some "b",
    priority := some TPriority.NORMAL }

/-! ## Theorems -/

/-- C5 counterexample: for the remote listing
`"data_0.dat\nheader.hdr\ndata_1.dat"` the download list built by
`_clone_copy` is NOT `data_0.dat, data_1.dat, header.hdr` — non-`.hdr`
names are inserted at the head of the list, reversing their relative
order. -/
theorem clone_order_s4_counterexample :
    clone_file_name_list ("data_0.dat\nheader.hdr\ndata_1.dat".toList) ≠
      ["data_0.dat".toList, "data_1.dat".toList, "header.hdr".toList] := by
  decide

/-- C5 (amended): for the remote listing
`"data_0.dat\nheader.hdr\ndata_1.dat"` the download list built by
`_clone_copy` yields the download order
`data_1.dat, data_0.dat, header.hdr`: the non-`.hdr` files in reverse
listing order, then the `.hdr` file. -/
theorem clone_order_s4 :
    clone_file_name_list ("data_0.dat\nheader.hdr\ndata_1.dat".toList) =
      ["data_1.dat".toList, "data_0.dat".toList, "header.hdr".toList] := by
  decide

/-- C4: contrary to the claim (and to the in-code comment
`"Internal error, need retry"`), the `while (retry_time < PUSH_MAX_RETRY)`
loop with `PUSH_MAX_RETRY = 1` invokes `pusher.process` exactly once for
every outcome sequence: after the first `PALO_ERROR` the incremented
`retry_time` already fails the loop guard, so no second attempt is ever
made. -/
theorem push_process_exactly_one_attempt (proc : ℕ → AgentStatus) :
    (push_process_attempts proc).1 = 1 ∧
    (push_process_attempts proc).2 = proc 0 := by
  unfold push_process_attempts PUSH_MAX_RETRY push_process_loop
  by_cases h : proc 0 = AgentStatus.PALO_ERROR <;> simp [h, push_process_loop]

/-- C8: `_finish_task` calls the coordinator `finishTask` RPC at most
`TASK_FINISH_MAX_RETRY = 3` times, stops at the first successful
attempt (having slept once per failed attempt before it), and after
three consecutive failures returns with the result dropped
(`success = false`, three sleeps). -/
theorem finish_task_retry_protocol (rpc : ℕ → Bool) :
    (finish_task rpc).1 ≤ TASK_FINISH_MAX_RETRY ∧
    (∀ k, k < TASK_FINISH_MAX_RETRY → rpc k = true → (∀ j, j < k → rpc j = false) →
      finish_task rpc = (k + 1, k, true)) ∧
    ((∀ j, j < TASK_FINISH_MAX_RETRY → rpc j = false) →
      finish_task rpc = (TASK_FINISH_MAX_RETRY, TASK_FINISH_MAX_RETRY, false)) := by
  refine ⟨?_, ?_, ?_⟩
  · rcases h0 : rpc 0 <;> rcases h1 : rpc 1 <;> rcases h2 : rpc 2 <;>
      simp [finish_task, TASK_FINISH_MAX_RETRY, finish_task_loop, h0, h1, h2]
  · intro k hk hsucc hbefore
    simp only [TASK_FINISH_MAX_RETRY] at hk
    interval_cases k
    · simp [finish_task, TASK_FINISH_MAX_RETRY, finish_task_loop, hsucc]
    · have h0 : rpc 0 = false := hbefore 0 (by omega)
      simp [finish_task, TASK_FINISH_MAX_RETRY, finish_task_loop, h0, hsucc]
    · have h0 : rpc 0 = false := hbefore 0 (by omega)
      have h1 : rpc 1 = false := hbefore 1 (by omega)
      simp [finish_task, TASK_FINISH_MAX_RETRY, finish_task_loop, h0, h1, hsucc]
  · intro hall
    have h0 : rpc 0 = false := hall 0 (by simp [TASK_FINISH_MAX_RETRY])
    have h1 : rpc 1 = false := hall 1 (by simp [TASK_FINISH_MAX_RETRY])
    have h2 : rpc 2 = false := hall 2 (by simp [TASK_FINISH_MAX_RETRY])
    simp [finish_task, TASK_FINISH_MAX_RETRY, finish_task_loop, h0, h1, h2]

/-- Witness for C8: the coordinator fails twice, then succeeds: three
RPC calls are made, two sleeps happen, the report goes through
(spec scenario S6). -/
theorem finish_task_retry_protocol_witness :
    finish_task (fun n => decide (n = 2)) = (3, 2, true) :=
  (finish_task_retry_protocol (fun n => decide (n = 2))).2.1 2 (by decide) (by decide)
    (fun j hj => by interval_cases j <;> decide)

/-- C3: submitting a task whose signature is already in
`inflight[kind]` is a complete no-op (queue and every registry counter
unchanged); submitting a fresh signature inserts it into
`inflight[kind]`, leaves all other kinds' signature sets and all
running counts alone, bumps `total_by_user[PUSH][user]` and
`total[PUSH]` by exactly one precisely when the kind is `PUSH`, and
appends the task to the pool queue. -/
theorem submit_task_dedup_and_insert (q : List TAgentTaskRequest) (reg : Registry)
    (t : TAgentTaskRequest) :
    (t.signature ∈ reg.task_signatures t.task_type →
      submit_task q reg t = (q, reg)) ∧
    (t.signature ∉ reg.task_signatures t.task_type →
      (submit_task q reg t).1 = q ++ [t] ∧
      (submit_task q reg t).2.task_signatures t.task_type
          = insert t.signature (reg.task_signatures t.task_type) ∧
      (∀ ty, ty ≠ t.task_type →
        (submit_task q reg t).2.task_signatures ty = reg.task_signatures ty) ∧
      (submit_task q reg t).2.running_task_user_count = reg.running_task_user_count ∧
      (t.task_type = TTaskType.PUSH →
        (submit_task q reg t).2.total_task_user_count TTaskType.PUSH (t.user.getD "")
            = reg.total_task_user_count TTaskType.PUSH (t.user.getD "") + 1 ∧
        (∀ ty u, ¬(ty = TTaskType.PUSH ∧ u = t.user.getD "") →
          (submit_task q reg t).2.total_task_user_count ty u
              = reg.total_task_user_count ty u) ∧
        (submit_task q reg t).2.total_task_count TTaskType.PUSH
            = reg.total_task_count TTaskType.PUSH + 1 ∧
        (∀ ty, ty ≠ TTaskType.PUSH →
          (submit_task q reg t).2.total_task_count ty = reg.total_task_count ty)) ∧
      (t.task_type ≠ TTaskType.PUSH →
        (submit_task q reg t).2.total_task_user_count = reg.total_task_user_count ∧
        (submit_task q reg t).2.total_task_count = reg.total_task_count)) := by
  constructor
  · intro hmem
    simp [submit_task, record_task_info, hmem]
  · intro hmem
    refine ⟨?_, ?_, ?_, ?_, ?_, ?_⟩
    · simp [submit_task, record_task_info, hmem]
    · simp [submit_task, record_task_info, hmem]
    · intro ty hty
      simp [submit_task, record_task_info, hmem, hty]
    · simp [submit_task, record_task_info, hmem]
    · intro hpush
      have hmem' : t.signature ∉ reg.task_signatures TTaskType.PUSH := hpush ▸ hmem
      refine ⟨?_, ?_, ?_, ?_⟩
      · simp [submit_task, record_task_info, hmem', hpush]
      · intro ty u hne
        simp only [submit_task, record_task_info, if_neg hmem]
        rw [if_neg]
        rintro ⟨h1, h2, h3⟩
        exact hne ⟨h2.trans h1, h3⟩
      · simp [submit_task, record_task_info, hmem', hpush]
      · intro ty hty
        simp only [submit_task, record_task_info, if_neg hmem]
        rw [if_neg]
        rintro ⟨h1, h2⟩
        exact hty (h2.trans h1)
    · intro hpush
      constructor
      · funext ty u
        simp only [submit_task, record_task_info, if_neg hmem]
        rw [if_neg]
        rintro ⟨h1, -⟩
        exact hpush h1
      · funext ty
        simp only [submit_task, record_task_info, if_neg hmem]
        rw [if_neg]
        rintro ⟨h1, -⟩
        exact hpush h1

/-- Witness for C3: submitting a fresh push signature to an empty pool
enqueues the task and bumps `total[PUSH]` by one. -/
theorem submit_task_dedup_and_insert_witness :
    (submit_task [] empty_reg task_a).1 = [] ++ [task_a] ∧
    (submit_task [] empty_reg task_a).2.total_task_count TTaskType.PUSH
        = empty_reg.total_task_count TTaskType.PUSH + 1 := by
  have h := (submit_task_dedup_and_insert [] empty_reg task_a).2 (by simp [empty_reg, task_a])
  exact ⟨h.1, (h.2.2.2.2.1 rfl).2.2.1⟩

/-- The HIGH-lane scan finds no task iff no queued task has its
priority field set to HIGH (irrespective of the carried user). -/
theorem scan_high_eq_none_iff (l : List TAgentTaskRequest) :
    ∀ user, scan_high l user = none ↔ ∀ t ∈ l, ¬ t.priority = some TPriority.HIGH := by
  induction l with
  | nil => intro user; simp [scan_high]
  | cons t rest ih =>
      intro user
      by_cases h : t.priority = some TPriority.HIGH
      · simp [scan_high, h]
      · simp only [scan_high, if_neg h, Option.map_eq_none']
        rw [ih]
        simp [h]

/-- When the HIGH-lane scan selects, the selected index is in range,
the task there has its priority field set to HIGH, and no
earlier-indexed task does. -/
theorem scan_high_eq_some_spec (l : List TAgentTaskRequest) :
    ∀ user i u ty, scan_high l user = some (i, u, ty) →
      ∃ hi : i < l.length,
        (l.get ⟨i, hi⟩).priority = some TPriority.HIGH ∧
        ∀ (j : ℕ) (hj : j < l.length), j < i →
          ¬ (l.get ⟨j, hj⟩).priority = some TPriority.HIGH := by
  induction l with
  | nil => intro user i u ty h; simp [scan_high] at h
  | cons t rest ih =>
      intro user i u ty h
      by_cases hp : t.priority = some TPriority.HIGH
      · simp [scan_high, hp] at h
        obtain ⟨hi, -, -⟩ := h
        subst hi
        exact ⟨by simp, by simpa using hp, fun j hj hji => by omega⟩
      · simp only [scan_high, if_neg hp, Option.map_eq_some'] at h
        obtain ⟨⟨i', u', ty'⟩, hrec, heq⟩ := h
        obtain ⟨hi, hu, hty⟩ : i' + 1 = i ∧ u' = u ∧ ty' = ty := by simpa using heq
        subst hi
        obtain ⟨hlt, hhigh, hmin⟩ := ih _ i' u' ty' hrec
        refine ⟨by simp; omega, ?_, ?_⟩
        · simpa using hhigh
        · intro j hj hji
          cases j with
          | zero => simpa using hp
          | succ jj =>
              have hjj : jj < rest.length := by simp at hj; omega
              have := hmin jj hjj (by omega)
              simpa using this

/-- C2: a HIGH-lane call of `_get_next_task_index` returns -1 exactly
when no queued task has its priority field set to HIGH; when a first
such task exists at index `i` it returns `i`; consequently whenever the
HIGH-lane selection step hands a task to execution, that task's
priority field is set to HIGH. -/
theorem high_lane_selects_first_high (tc : ℕ) (tasks : List TAgentTaskRequest)
    (reg : Registry) :
    ((get_next_task_index tc tasks TPriority.HIGH reg).1 = -1 ↔
      ∀ t ∈ tasks, ¬ t.priority = some TPriority.HIGH) ∧
    (∀ (i : ℕ) (hi : i < tasks.length),
      (tasks.get ⟨i, hi⟩).priority = some TPriority.HIGH →
      (∀ (j : ℕ) (hj : j < tasks.length), j < i →
        ¬ (tasks.get ⟨j, hj⟩).priority = some TPriority.HIGH) →
      (get_next_task_index tc tasks TPriority.HIGH reg).1 = (i : ℤ)) ∧
    (∀ t : TAgentTaskRequest,
      (push_worker_select_step tc TPriority.HIGH tasks reg).2.2 = some t →
      t.priority = some TPriority.HIGH) := by
  refine ⟨?_, ?_, ?_⟩
  · cases hscan : scan_high tasks "" with
    | none =>
        simp only [get_next_task_index, hscan]
        simpa using (scan_high_eq_none_iff tasks "").mp hscan
    | some r =>
        obtain ⟨i, u, ty⟩ := r
        simp only [get_next_task_index, hscan]
        constructor
        · intro h; exact absurd h (by omega)
        · intro hall
          obtain ⟨hi, hhigh, -⟩ := scan_high_eq_some_spec tasks "" i u ty hscan
          exact absurd hhigh (hall _ (List.get_mem tasks i hi))
  · intro i hi hhigh hmin
    cases hscan : scan_high tasks "" with
    | none =>
        exact absurd hhigh (((scan_high_eq_none_iff tasks "").mp hscan) _
          (List.get_mem tasks i hi))
    | some r =>
        obtain ⟨i', u, ty⟩ := r
        obtain ⟨hi', hhigh', hmin'⟩ := scan_high_eq_some_spec tasks "" i' u ty hscan
        have : i' = i := by
          rcases Nat.lt_trichotomy i' i with h | h | h
          · exact absurd hhigh' (hmin i' hi' h)
          · exact h
          · exact absurd hhigh (hmin' i hi h)
        subst this
        simp [get_next_task_index, hscan]
  · intro t hstep
    cases hscan : scan_high tasks "" with
    | none =>
        simp [push_worker_select_step, get_next_task_index, hscan] at hstep
    | some r =>
        obtain ⟨i, u, ty⟩ := r
        obtain ⟨hi, hhigh, -⟩ := scan_high_eq_some_spec tasks "" i u ty hscan
        simp only [push_worker_select_step, get_next_task_index, hscan] at hstep
        rw [if_neg (by omega)] at hstep
        have : tasks.get? ((i : ℤ)).toNat = some t := hstep
        rw [Int.toNat_ofNat, List.get?_eq_get hi] at this
        obtain rfl : tasks.get ⟨i, hi⟩ = t := by simpa using this
        exact hhigh

/-- Witness for C2: in the queue `[task_a, task_b_high]` a HIGH-lane
worker selects index 1 — the single HIGH task surrounded by NORMAL
ones (spec boundary test 10). -/
theorem high_lane_selects_first_high_witness :
    (get_next_task_index 2 [task_a, task_b_high] TPriority.HIGH sample_reg).1 = (1 : ℕ) :=
  (high_lane_selects_first_high 2 [task_a, task_b_high] sample_reg).2.1 1 (by decide)
    (by decide) (fun j hj hj1 => by interval_cases j; simp [task_a])

/-- C10: when a HIGH-lane worker's call of `_get_next_task_index`
comes back negative (no task with the HIGH priority field in the
queue), the selection step leaves the queue and the whole registry —
in-flight signature sets, `total_by_user`, `total` and
`running_by_user` — unchanged, and no task is handed to execution. -/
theorem high_lane_no_high_task_is_noop (tc : ℕ) (queue : List TAgentTaskRequest)
    (reg : Registry)
    (h : ∀ t ∈ queue, ¬ t.priority = some TPriority.HIGH) :
    push_worker_select_step tc TPriority.HIGH queue reg = (queue, reg, none) := by
  have hscan : scan_high queue "" = none := (scan_high_eq_none_iff queue "").mpr h
  simp [push_worker_select_step, get_next_task_index, hscan]

/-- Witness for C10: a queue holding one NORMAL and one unset-priority
push task is left untouched, with the registry identical, by a
HIGH-lane selection attempt. -/
theorem high_lane_no_high_task_is_noop_witness :
    push_worker_select_step 2 TPriority.HIGH [task_a, task_b_normal] sample_reg =
      ([task_a, task_b_normal], sample_reg, none) :=
  high_lane_no_high_task_is_noop 2 [task_a, task_b_normal] sample_reg (by decide)

/-- Shifting the index component of a scan result commutes with
projecting the index. -/
theorem option_shift_fst (o : Option (ℕ × String × TTaskType)) :
    (o.map fun r => (r.1 + 1, r.2)).map Prod.fst = (o.map Prod.fst).map (· + 1) := by
  cases o <;> simp

/-- On a queue of push tasks that all carry a user, the NORMAL-lane
scan returns the index of the leftmost task whose user passes
`share_test`, provided every user already marked improper fails the
test (the scan itself only ever marks failing users). -/
theorem scan_normal_map_fst (reg : Registry) (tc : ℕ) (l : List TAgentTaskRequest) :
    ∀ (user : String) (improper : List String),
      (∀ t ∈ l, t.task_type = TTaskType.PUSH) →
      (∀ t ∈ l, (t.user).isSome = true) →
      (∀ u ∈ improper, share_test reg tc TTaskType.PUSH u = false) →
      (scan_normal reg tc l user improper).map Prod.fst =
        l.findIdx? fun t => share_test reg tc TTaskType.PUSH (t.user.getD "") := by
  induction l with
  | nil => intro user improper h1 h2 h3; simp [scan_normal]
  | cons t rest ih =>
      intro user improper h1 h2 h3
      obtain ⟨v, hv⟩ := Option.isSome_iff_exists.mp (h2 t (by simp))
      have ht : t.task_type = TTaskType.PUSH := h1 t (by simp)
      have h1' : ∀ x ∈ rest, x.task_type = TTaskType.PUSH := fun x hx => h1 x (by simp [hx])
      have h2' : ∀ x ∈ rest, x.user.isSome = true := fun x hx => h2 x (by simp [hx])
      rw [List.findIdx?_cons]
      by_cases hmem : v ∈ improper
      · have hft : share_test reg tc TTaskType.PUSH v = false := h3 v hmem
        simp only [scan_normal, hv, Option.getD_some, if_pos hmem, hft, Bool.false_eq_true,
          if_false, option_shift_fst, ih v improper h1' h2' h3, List.findIdx?_succ]
      · by_cases hpass : share_test reg tc t.task_type v = true
        · have hpt : share_test reg tc TTaskType.PUSH v = true := ht ▸ hpass
          simp [scan_normal, hv, if_neg hmem, hpass, hpt]
        · have hft : share_test reg tc TTaskType.PUSH v = false := by
            rw [← ht]; exact Bool.eq_false_iff.mpr hpass
          have h3' : ∀ u ∈ v :: improper, share_test reg tc TTaskType.PUSH u = false := by
            intro u hu
            rcases List.mem_cons.mp hu with rfl | hu'
            · exact hft
            · exact h3 u hu'
          simp only [scan_normal, hv, Option.getD_some, if_neg hmem, hpass, Bool.false_eq_true,
            if_false, hft, option_shift_fst, ih v (v :: improper) h1' h2' h3',
            List.findIdx?_succ]

/-- A successful NORMAL-lane scan returns an index inside the queue. -/
theorem scan_normal_some_lt (reg : Registry) (tc : ℕ) (l : List TAgentTaskRequest) :
    ∀ (user : String) (improper : List String) (i : ℕ) (u : String) (ty : TTaskType),
      scan_normal reg tc l user improper = some (i, u, ty) → i < l.length := by
  induction l with
  | nil => intro user improper i u ty h; simp [scan_normal] at h
  | cons t rest ih =>
      intro user improper i u ty h
      simp only [scan_normal] at h
      by_cases hmem : (t.user.getD user) ∈ improper
      · rw [if_pos hmem, Option.map_eq_some'] at h
        obtain ⟨⟨i', u', ty'⟩, hrec, heq⟩ := h
        obtain ⟨hi, -, -⟩ : i' + 1 = i ∧ u' = u ∧ ty' = ty := by simpa using heq
        have := ih _ _ _ _ _ hrec
        simp only [List.length_cons]
        omega
      · rw [if_neg hmem] at h
        by_cases hpass : share_test reg tc t.task_type (t.user.getD user) = true
        · rw [if_pos hpass] at h
          obtain ⟨hi, -, -⟩ : 0 = i ∧ (t.user.getD user) = u ∧ t.task_type = ty := by
            simpa using h
          simp only [List.length_cons]
          omega
        · rw [if_neg hpass, Option.map_eq_some'] at h
          obtain ⟨⟨i', u', ty'⟩, hrec, heq⟩ := h
          obtain ⟨hi, -, -⟩ : i' + 1 = i ∧ u' = u ∧ ty' = ty := by simpa using heq
          have := ih _ _ _ _ _ hrec
          simp only [List.length_cons]
          omega

/-- C1: for a non-empty push queue whose tasks all carry a user, a
NORMAL-lane call of `_get_next_task_index` returns the index of the
leftmost task whose user passes the share test
(`running = 0` or `(running + 1)/thread_count <= total_user/total`);
users failing the test are added to `improper_users` and their later
tasks skipped (folded into the first-passing-index characterisation),
and when no task passes the scan falls back to index 0, the head of
the queue. -/
theorem normal_lane_selects_leftmost_fair (tc : ℕ) (tasks : List TAgentTaskRequest)
    (reg : Registry) (htc : 0 < tc)
    (h1 : ∀ t ∈ tasks, t.task_type = TTaskType.PUSH)
    (h2 : ∀ t ∈ tasks, (t.user).isSome = true)
    (h3 : tasks ≠ []) :
    (get_next_task_index tc tasks TPriority.NORMAL reg).1 =
      (((tasks.findIdx? fun t =>
          share_test reg tc TTaskType.PUSH (t.user.getD "")).getD 0 : ℕ) : ℤ) := by
  have hmap := scan_normal_map_fst reg tc tasks "" [] h1 h2 (by simp)
  cases hscan : scan_normal reg tc tasks "" [] with
  | none =>
      rw [hscan] at hmap
      simp only [Option.map_none'] at hmap
      cases tasks with
      | nil => exact absurd rfl h3
      | cons t rest => simp [get_next_task_index, hscan, ← hmap]
  | some r =>
      obtain ⟨i, u, ty⟩ := r
      rw [hscan] at hmap
      simp only [Option.map_some'] at hmap
      simp [get_next_task_index, hscan, ← hmap]

/-- Witness for C1: with 4 workers, user `"a"` over quota
(3 running of 1/4 admitted share) and user `"b"` idle, the scan over
`[task_a, task_b_normal]` selects the leftmost passing task — index 1
— matching the first-passing-index specification, which evaluates
to 1. -/
theorem normal_lane_selects_leftmost_fair_witness :
    (get_next_task_index 4 [task_a, task_b_normal] TPriority.NORMAL sample_reg).1 =
      ((([task_a, task_b_normal].findIdx? fun t =>
          share_test sample_reg 4 TTaskType.PUSH (t.user.getD "")).getD 0 : ℕ) : ℤ) ∧
    ((([task_a, task_b_normal].findIdx? fun t =>
        share_test sample_reg 4 TTaskType.PUSH (t.user.getD "")).getD 0 : ℕ) : ℤ) = 1 := by
  constructor
  · exact normal_lane_selects_leftmost_fair 4 [task_a, task_b_normal] sample_reg
      (by decide) (by decide) (by decide) (by decide)
  · have ha : share_test sample_reg 4 TTaskType.PUSH "a" = false := by
      simp [share_test, user_running_rate, user_total_rate, sample_reg]
      norm_num
    have hb : share_test sample_reg 4 TTaskType.PUSH "b" = true := by
      simp [share_test, sample_reg]
    simp [List.findIdx?_cons, List.findIdx?_succ, task_a, task_b_normal, ha, hb]

/-- C7: when `total[PUSH] = 0` at NORMAL-lane selection time, the
admitted-share ratio `user_total_rate` is 0 for every user (the `ℚ`
embedding of the `float` division yields 0 on a zero denominator, and
the source's `NaN` comparison takes the same branch for a positive
thread count), no division error occurs — the selection function is
total — and the returned index is still a valid index into the
non-empty queue. -/
theorem normal_lane_zero_total_safe (tc : ℕ) (tasks : List TAgentTaskRequest)
    (reg : Registry) (htc : 0 < tc)
    (htot : reg.total_task_count TTaskType.PUSH = 0)
    (h3 : tasks ≠ []) :
    (∀ u, user_total_rate reg TTaskType.PUSH u = 0) ∧
    0 ≤ (get_next_task_index tc tasks TPriority.NORMAL reg).1 ∧
    ((get_next_task_index tc tasks TPriority.NORMAL reg).1).toNat < tasks.length := by
  refine ⟨fun u => by simp [user_total_rate, htot], ?_⟩
  cases hscan : scan_normal reg tc tasks "" [] with
  | none =>
      cases tasks with
      | nil => exact absurd rfl h3
      | cons t rest => simp [get_next_task_index, hscan]
  | some r =>
      obtain ⟨i, u, ty⟩ := r
      have hi := scan_normal_some_lt reg tc tasks "" [] i u ty hscan
      simp [get_next_task_index, hscan, hi]

/-- Witness for C7: with no admitted push counts at all
(`empty_reg`, `total[PUSH] = 0`) and one worker, selecting from the
one-task queue [task_a] stays total, treats the ratio as 0 and
returns the valid index 0. -/
theorem normal_lane_zero_total_safe_witness :
    (∀ u, user_total_rate empty_reg TTaskType.PUSH u = 0) ∧
    0 ≤ (get_next_task_index 1 [task_a] TPriority.NORMAL empty_reg).1 ∧
    ((get_next_task_index 1 [task_a] TPriority.NORMAL empty_reg).1).toNat <
      [task_a].length :=
  normal_lane_zero_total_safe 1 [task_a] empty_reg (by decide) (by decide) (by decide)

/-- Folding the clone list-building step keeps the accumulator split
into a non-`.hdr` front segment followed by a `.hdr` back segment:
non-`.hdr` names are consed onto the front, `.hdr` names appended at
the back. -/
theorem clone_foldl_split (chunks : List (List Char)) :
    ∀ A B : List (List Char),
      (∀ x ∈ A, is_hdr_file x = false) → (∀ x ∈ B, is_hdr_file x = true) →
      ∃ A' B', List.foldl clone_list_step (A ++ B) chunks = A' ++ B' ∧
        (∀ x ∈ A', is_hdr_file x = false) ∧ (∀ x ∈ B', is_hdr_file x = true) := by
  induction chunks with
  | nil => intro A B hA hB; exact ⟨A, B, rfl, hA, hB⟩
  | cons c cs ih =>
      intro A B hA hB
      by_cases hc : is_hdr_file c = true
      · have hstep : clone_list_step (A ++ B) c = A ++ (B ++ [c]) := by
          simp [clone_list_step, hc]
        have hB' : ∀ x ∈ B ++ [c], is_hdr_file x = true := by
          intro x hx
          rcases List.mem_append.mp hx with hx' | hx'
          · exact hB x hx'
          · simpa [List.mem_singleton.mp hx'] using hc
        simpa [List.foldl_cons, hstep] using ih A (B ++ [c]) hA hB'
      · have hstep : clone_list_step (A ++ B) c = (c :: A) ++ B := by
          simp [clone_list_step, hc]
        have hA' : ∀ x ∈ c :: A, is_hdr_file x = false := by
          intro x hx
          rcases List.mem_cons.mp hx with rfl | hx'
          · exact Bool.eq_false_iff.mpr hc
          · exact hA x hx'
        simpa [List.foldl_cons, hstep] using ih (c :: A) B hA' hB

/-- C6 counterexample: with the remote listing `"foo.dat\n.hdr"` the
four-character name `.hdr` fails the code's `size() > 4` guard and is
inserted at the head, so a file name ending in `.hdr` is downloaded
BEFORE a name not ending in `.hdr`, refuting the claim as stated. -/
theorem clone_hdr_last_counterexample :
    clone_file_name_list ("foo.dat\n.hdr".toList) = [".hdr".toList, "foo.dat".toList] ∧
    ends_with_hdr (".hdr".toList) = true ∧
    ends_with_hdr ("foo.dat".toList) = false := by
  decide

/-- C6 (amended): in the download list built by `_clone_copy`, every
name the code classifies as a header file — LONGER THAN four characters
and ending in `.hdr` — is positioned after every name it does not, so
all non-header files are downloaded before any header file. -/
theorem clone_hdr_files_downloaded_last (s : List Char) (i j : ℕ)
    (hi : i < (clone_file_name_list s).length)
    (hj : j < (clone_file_name_list s).length)
    (hhi : is_hdr_file ((clone_file_name_list s).get ⟨i, hi⟩) = true)
    (hhj : is_hdr_file ((clone_file_name_list s).get ⟨j, hj⟩) = false) :
    j < i := by
  obtain ⟨A, B, hsplit, hA, hB⟩ :=
    clone_foldl_split (split_file_list s) [] [] (by simp) (by simp)
  rw [List.nil_append] at hsplit
  have hlist : clone_file_name_list s = A ++ B := hsplit
  have hiA : A.length ≤ i := by
    by_contra hlt
    push_neg at hlt
    have : (clone_file_name_list s).get ⟨i, hi⟩ = A.get ⟨i, hlt⟩ := by
      simp only [hlist, List.get_eq_getElem]
      exact List.getElem_append_left hlt
    rw [this] at hhi
    exact absurd hhi (by rw [hA _ (List.get_mem A i hlt)]; simp)
  have hjA : j < A.length := by
    by_contra hge
    push_neg at hge
    have hjB : j - A.length < B.length := by
      have := hj
      rw [hlist, List.length_append] at this
      omega
    have : (clone_file_name_list s).get ⟨j, hj⟩ = B.get ⟨j - A.length, hjB⟩ := by
      simp only [hlist, List.get_eq_getElem]
      exact List.getElem_append_right hge
    rw [this] at hhj
    exact absurd (hB _ (List.get_mem B _ hjB)) (by rw [hhj]; simp)
  omega

/-- Witness for C6: for the listing `"a.hdr\nb.dat"` the list is
`[b.dat, a.hdr]`; the header file sits at index 1, after the data file
at index 0. -/
theorem clone_hdr_files_downloaded_last_witness : (0 : ℕ) < 1 :=
  clone_hdr_files_downloaded_last ("a.hdr\nb.dat".toList) 1 0
    (by decide) (by decide) (by decide) (by decide)

/-- Unfolding of `std::string::find` on a cons cell. -/
theorem first_index_of_cons (c x : Char) (xs : List Char) :
    first_index_of c (x :: xs) =
      if x = c then some 0 else (first_index_of c xs).map (· + 1) := by
  simp [first_index_of, List.findIdx?_cons, List.findIdx?_succ]

/-- A successful `find` splits the string at the FIRST occurrence of
the character. -/
theorem first_index_of_eq_some (c : Char) (name : List Char) :
    ∀ p, first_index_of c name = some p →
      ∃ pre post, name = pre ++ c :: post ∧ pre.length = p ∧ c ∉ pre := by
  induction name with
  | nil => intro p h; simp [first_index_of] at h
  | cons x xs ih =>
      intro p h
      rw [first_index_of_cons] at h
      by_cases hx : x = c
      · rw [if_pos hx] at h
        obtain rfl : (0 : ℕ) = p := by simpa using h
        exact ⟨[], xs, by simp [hx], rfl, by simp⟩
      · rw [if_neg hx, Option.map_eq_some'] at h
        obtain ⟨p', hp', rfl⟩ := h
        obtain ⟨pre, post, heq, hlen, hnot⟩ := ih p' hp'
        refine ⟨x :: pre, post, by simp [heq], by simp [hlen], ?_⟩
        intro hmem
        rcases List.mem_cons.mp hmem with hcx | hcx
        · exact hx hcx.symm
        · exact hnot hcx

/-- `find` succeeds on any character present in the string. -/
theorem first_index_of_mem (c : Char) (name : List Char) (h : c ∈ name) :
    ∃ p, first_index_of c name = some p := by
  induction name with
  | nil => simp at h
  | cons x xs ih =>
      rw [first_index_of_cons]
      by_cases hx : x = c
      · exact ⟨0, by simp [hx]⟩
      · have hxs : c ∈ xs := by
          rcases List.mem_cons.mp h with rfl | hmem
          · exact absurd rfl hx
          · exact hmem
        obtain ⟨p, hp⟩ := ih hxs
        exact ⟨p + 1, by simp [hx, hp]⟩

/-- For a long-enough name with a recognised suffix, the restore rename
reduces to the `find`-based prefix replacement. -/
theorem restore_rename_unfold (tablet_id name : List Char) (h4 : 4 < name.length)
    (hsuf : name.drop (name.length - 4) = ['.', 'h', 'd', 'r'] ∨
      name.drop (name.length - 4) = ['.', 'i', 'd', 'x'] ∨
      name.drop (name.length - 4) = ['.', 'd', 'a', 't']) :
    restore_rename tablet_id name =
      match first_index_of (restore_sep name) name with
      | some p => RenameResult.renamed (tablet_id ++ name.drop p)
      | none => RenameResult.outOfRange := by
  unfold restore_rename restore_sep
  rw [if_neg (by omega), if_neg ?hcond]
  case hcond =>
    rintro ⟨hh, hi, hd⟩
    rcases hsuf with h | h | h
    · exact hh h
    · exact hi h
    · exact hd h

/-- C9 counterexample: for the downloaded file `a_b_c.dat` with
`tablet_id = 7`, the worker replaces the prefix before the FIRST `'_'`
(`std::string::find`), producing `7_b_c.dat`; the claim's "last `'_'`"
rule would produce `7_c.dat` instead. -/
theorem restore_rename_counterexample :
    restore_rename ("7".toList) ("a_b_c.dat".toList)
        = RenameResult.renamed ("7_b_c.dat".toList) ∧
    restore_rename_spec_last ("7".toList) ("a_b_c.dat".toList)
        = RenameResult.renamed ("7_c.dat".toList) ∧
    restore_rename ("7".toList) ("a_b_c.dat".toList) ≠
      restore_rename_spec_last ("7".toList) ("a_b_c.dat".toList) := by
  decide

/-- C9 (amended): for every downloaded regular file whose name (after
the last `/`) is longer than 4 characters, ends with `.hdr`, `.idx` or
`.dat`, and contains the separator (`'.'` for `.hdr`, `'_'`
otherwise), the restore worker replaces the prefix before the FIRST
occurrence of the separator with the restored tablet id; names of
length at most 4 or with any other suffix are left unrenamed. -/
theorem restore_rename_first_sep_replace (tablet_id name : List Char) :
    (4 < name.length →
      (name.drop (name.length - 4) = ['.', 'h', 'd', 'r'] ∨
       name.drop (name.length - 4) = ['.', 'i', 'd', 'x'] ∨
       name.drop (name.length - 4) = ['.', 'd', 'a', 't']) →
      restore_sep name ∈ name →
      ∃ pre post, name = pre ++ restore_sep name :: post ∧ restore_sep name ∉ pre ∧
        restore_rename tablet_id name
          = RenameResult.renamed (tablet_id ++ restore_sep name :: post)) ∧
    (name.length ≤ 4 → restore_rename tablet_id name = RenameResult.skip) ∧
    (4 < name.length →
      ¬(name.drop (name.length - 4) = ['.', 'h', 'd', 'r'] ∨
        name.drop (name.length - 4) = ['.', 'i', 'd', 'x'] ∨
        name.drop (name.length - 4) = ['.', 'd', 'a', 't']) →
      restore_rename tablet_id name = RenameResult.skip) := by
  refine ⟨?_, ?_, ?_⟩
  · intro h4 hsuf hsep
    obtain ⟨p, hp⟩ := first_index_of_mem _ name hsep
    obtain ⟨pre, post, heq, hlen, hnot⟩ := first_index_of_eq_some _ name p hp
    refine ⟨pre, post, heq, hnot, ?_⟩
    have hdrop : name.drop p = restore_sep name :: post := by
      conv_lhs => rw [heq, ← hlen]
      exact List.drop_left pre _
    rw [restore_rename_unfold tablet_id name h4 hsuf, hp]
    show RenameResult.renamed (tablet_id ++ name.drop p)
      = RenameResult.renamed (tablet_id ++ restore_sep name :: post)
    rw [hdrop]
  · intro h4
    unfold restore_rename
    rw [if_pos h4]
  · intro h4 hsuf
    push_neg at hsuf
    obtain ⟨hh, hi, hd⟩ := hsuf
    unfold restore_rename
    rw [if_neg (by omega), if_pos ⟨hh, hi, hd⟩]

/-- Witness for C9: applying the rename rule to `a_b_c.dat` with
`tablet_id = 7` splits the name at its first `'_'` and yields the
renamed file. -/
theorem restore_rename_first_sep_replace_witness :
    ∃ pre post,
      "a_b_c.dat".toList = pre ++ restore_sep ("a_b_c.dat".toList) :: post ∧
      restore_sep ("a_b_c.dat".toList) ∉ pre ∧
      restore_rename ("7".toList) ("a_b_c.dat".toList)
        = RenameResult.renamed ("7".toList ++ restore_sep ("a_b_c.dat".toList) :: post) :=
  (restore_rename_first_sep_replace ("7".toList) ("a_b_c.dat".toList)).1
    (by decide) (by decide) (by decide)

end Palo
